import Mathlib

/-!
Verification of the gearman_gtop status dashboard.

The Go sources are shallowly embedded below: status rows carry their four
fields as strings (as in the Go `statusLine` / `gearadmin.StatusLine`
structs), display state is passed explicitly, Go `int` arithmetic is
modelled with `Int` (or `Nat` where the source value is an index that the
surrounding code keeps non-negative), and fallible parsing returns
`Except`.
-/

/-- The Go `statusLine` / `gearadmin.StatusLine` struct: one job queue's
name plus queued/running/worker counts, all kept as strings. -/
structure StatusLine where
  name : String
  queued : String
  running : String
  workers : String
deriving DecidableEq, Repr

/-- The Go global `columnNames`: header labels of the four columns. -/
def columnNames : StatusLine :=
  { name := "Job name", queued := "Queued", running := "Running", workers := "Workers" }

/-- Go `strings.ToLower` (character-wise lowercasing). -/
def strToLower (s : String) : String := String.mk (s.data.map Char.toLower)

/-- Go `strings.Contains s t`: `t` occurs as a contiguous substring of `s`. -/
def strContains (s t : String) : Bool :=
  (List.range (s.data.length + 1)).any (fun i => t.data.isPrefixOf (s.data.drop i))

/-- The Go `statusFilter` closure: drops idle rows unless `showAll`, then
applies exclude terms (dropping on a match) and include terms (keeping on
a match) to the lowercased name; with a non-empty include list and no
match the row is dropped. -/
def statusFilter (showAll : Bool) (includeTerms excludeTerms : List String)
    (line : StatusLine) : Bool :=
  if !showAll && line.queued == "0" && line.running == "0" && line.workers == "0" then
    false
  else if includeTerms.isEmpty && excludeTerms.isEmpty then
    true
  else
    let name := strToLower line.name
    if excludeTerms.any (fun t => strContains name t) then
      false
    else if includeTerms.any (fun t => strContains name t) then
      true
    else
      includeTerms.isEmpty

/-- C1: `statusFilter` keeps a row iff (1) `showAll` is set or one of the
three count fields differs from "0", (2) the lowercased name contains no
exclude term, and (3) the include list is empty or the lowercased name
contains some include term.  In particular exclude wins over include, and
with both term lists empty every non-idle row is kept. -/
theorem statusFilter_spec (showAll : Bool) (includeTerms excludeTerms : List String)
    (line : StatusLine) :
    statusFilter showAll includeTerms excludeTerms line = true ↔
      ((showAll = true ∨ line.queued ≠ "0" ∨ line.running ≠ "0" ∨ line.workers ≠ "0") ∧
        (∀ t ∈ excludeTerms, strContains (strToLower line.name) t = false) ∧
        (includeTerms = [] ∨ ∃ t ∈ includeTerms, strContains (strToLower line.name) t = true)) := by
  unfold statusFilter
  by_cases hidle : (!showAll && line.queued == "0" && line.running == "0" && line.workers == "0") = true
  · simp only [hidle, if_true]
    constructor
    · intro h; exact absurd h (by simp)
    · rintro ⟨h1, -, -⟩
      exfalso
      simp only [Bool.and_eq_true, Bool.not_eq_true', beq_iff_eq] at hidle
      obtain ⟨⟨⟨hs, hq⟩, hr⟩, hw⟩ := hidle
      rcases h1 with h | h | h | h
      · rw [h] at hs; exact absurd hs (by simp)
      · exact h hq
      · exact h hr
      · exact h hw
  · rw [Bool.not_eq_true] at hidle
    simp only [hidle, Bool.false_eq_true, if_false]
    have hkeep : showAll = true ∨ line.queued ≠ "0" ∨ line.running ≠ "0" ∨ line.workers ≠ "0" := by
      simp only [Bool.and_eq_false_iff, Bool.not_eq_false', beq_eq_false_iff_ne, ne_eq] at hidle
      rcases hidle with ((h | h) | h) | h
      · exact Or.inl h
      · exact Or.inr (Or.inl h)
      · exact Or.inr (Or.inr (Or.inl h))
      · exact Or.inr (Or.inr (Or.inr h))
    by_cases hempty : (includeTerms.isEmpty && excludeTerms.isEmpty) = true
    · simp only [hempty, if_true]
      simp only [Bool.and_eq_true, List.isEmpty_iff] at hempty
      obtain ⟨hi, he⟩ := hempty
      subst hi; subst he
      simp [hkeep]
    · rw [Bool.not_eq_true] at hempty
      simp only [hempty, Bool.false_eq_true, if_false]
      by_cases hexc : excludeTerms.any (fun t => strContains (strToLower line.name) t) = true
      · simp only [hexc, if_true]
        rw [List.any_eq_true] at hexc
        obtain ⟨t, ht, hc⟩ := hexc
        constructor
        · intro h; exact absurd h (by simp)
        · rintro ⟨-, hno, -⟩
          exact absurd (hno t ht) (by simp [hc])
      · rw [Bool.not_eq_true] at hexc
        simp only [hexc, Bool.false_eq_true, if_false]
        rw [List.any_eq_false] at hexc
        have hnoexc : ∀ t ∈ excludeTerms, strContains (strToLower line.name) t = false := by
          intro t ht
          simpa using hexc t ht
        by_cases hinc : includeTerms.any (fun t => strContains (strToLower line.name) t) = true
        · simp only [hinc, if_true]
          rw [List.any_eq_true] at hinc
          obtain ⟨t, ht, hc⟩ := hinc
          simp only [true_iff]
          exact ⟨hkeep, hnoexc, Or.inr ⟨t, ht, hc⟩⟩
        · rw [Bool.not_eq_true] at hinc
          simp only [hinc, Bool.false_eq_true, if_false]
          rw [List.any_eq_false] at hinc
          constructor
          · intro h
            rw [List.isEmpty_iff] at h
            exact ⟨hkeep, hnoexc, Or.inl h⟩
          · rintro ⟨-, -, hin | ⟨t, ht, hc⟩⟩
            · simp [hin]
            · exact absurd hc (by simpa using hinc t ht)

/-- The Go `sortType` state (the `sortField`/`sortAscending` fields of the
`display` struct): the active sort key as a rune and the direction. -/
structure sortType where
  field : Char
  ascending : Bool
deriving DecidableEq, Repr

/-- The Go `(*display).sortEvent`: pressing the active key flips
`ascending`; switching to key '1' sets `ascending` to true; switching to
any other key sets it to false; the pressed key becomes active. -/
def sortEvent (s : sortType) (index : Char) : sortType :=
  let asc :=
    if s.field = index then !s.ascending
    else if index = '1' then true
    else false
  { field := index, ascending := asc }

/-- C3: for a pressed key among '1'..'4', `sortEvent` flips `ascending`
when the key is already active, resets to ascending when switching to
'1', and resets to descending when switching to '2', '3' or '4'. -/
theorem sortEvent_spec (s : sortType) (k : Char) (_hk : k ∈ ['1', '2', '3', '4']) :
    (k = s.field → sortEvent s k = { field := s.field, ascending := !s.ascending }) ∧
      (k ≠ s.field → k = '1' → sortEvent s k = { field := '1', ascending := true }) ∧
      (k ≠ s.field → k ≠ '1' → sortEvent s k = { field := k, ascending := false }) := by
  clear _hk
  refine ⟨fun h => ?_, fun h h1 => ?_, fun h h1 => ?_⟩
  · subst h; simp [sortEvent]
  · subst h1
    have hne : ¬s.field = '1' := fun he => h he.symm
    simp [sortEvent, hne]
  · have hne : ¬s.field = k := fun he => h he.symm
    simp [sortEvent, hne, h1]

/-- Witness for C3: pressing '1' while '1' is active flips ascending to
descending. -/
theorem sortEvent_spec_witness :
    sortEvent { field := '1', ascending := true } '1' = { field := '1', ascending := false } :=
  (sortEvent_spec { field := '1', ascending := true } '1' (by decide)).1 rfl

/-- Splitting accumulator for `goFields`: walks the characters, cutting a
field at each whitespace run. -/
def goFieldsAux : List Char → List Char → List String
  | [], cur => if cur.isEmpty then [] else [String.mk cur.reverse]
  | c :: cs, cur =>
    if c.isWhitespace then
      if cur.isEmpty then goFieldsAux cs [] else String.mk cur.reverse :: goFieldsAux cs []
    else
      goFieldsAux cs (c :: cur)

/-- Go `strings.Fields`: the whitespace-separated tokens of a string,
empty tokens dropped. -/
def goFields (s : String) : List String := goFieldsAux s.data []

/-- The Go `statusLineFromString`: the line's whitespace-separated tokens
become the four fields; any other token count is an error. -/
def statusLineFromString (line : String) : Except String StatusLine :=
  match goFields line with
  | [a, b, c, d] => Except.ok { name := a, queued := b, running := c, workers := d }
  | _ => Except.error "Wrong number of fields"

/-- The read loop inside the Go `getStatus`: consume raw lines until the
".\n" terminator, parse each with `statusLineFromString`, and skip (via
`continue`) any line that fails to parse. -/
def getStatusLines : List String → List StatusLine
  | [] => []
  | l :: ls =>
    if l = ".\n" then []
    else
      match statusLineFromString l with
      | Except.ok r => r :: getStatusLines ls
      | Except.error _ => getStatusLines ls

/-- C5: parsing a line succeeds iff it has exactly four whitespace-separated
fields, in which case the four tokens become name/queued/running/workers;
and every row the read loop produces comes from a line that parsed
successfully, so malformed lines never contribute a row. -/
theorem statusLineFromString_spec (line : String) :
    ((∃ r, statusLineFromString line = Except.ok r) ↔ (goFields line).length = 4) ∧
      (∀ r, statusLineFromString line = Except.ok r →
        goFields line = [r.name, r.queued, r.running, r.workers]) ∧
      (∀ lines r, r ∈ getStatusLines lines →
        ∃ l ∈ lines, statusLineFromString l = Except.ok r) := by
  refine ⟨⟨fun ⟨r, hr⟩ => ?_, fun h => ?_⟩, fun r hr => ?_, fun lines => ?_⟩
  · unfold statusLineFromString at hr
    rcases hfl : goFields line with _ | ⟨a, _ | ⟨b, _ | ⟨c, _ | ⟨d, _ | ⟨e, tl⟩⟩⟩⟩⟩ <;>
      rw [hfl] at hr <;> simp_all
  · rcases hfl : goFields line with _ | ⟨a, _ | ⟨b, _ | ⟨c, _ | ⟨d, _ | ⟨e, tl⟩⟩⟩⟩⟩ <;>
      rw [hfl] at h <;> simp_all [statusLineFromString]
  · unfold statusLineFromString at hr
    rcases hfl : goFields line with _ | ⟨a, _ | ⟨b, _ | ⟨c, _ | ⟨d, _ | ⟨e, tl⟩⟩⟩⟩⟩ <;>
      rw [hfl] at hr <;> simp_all
    subst hr
    simp
  · induction lines with
    | nil => intro r hr; simp [getStatusLines] at hr
    | cons l ls ih =>
      intro r hr
      unfold getStatusLines at hr
      by_cases hterm : l = ".\n"
      · simp [hterm] at hr
      · simp only [hterm, if_false] at hr
        rcases hps : statusLineFromString l with e | r'
        · rw [hps] at hr
          obtain ⟨l', hl', hok⟩ := ih r hr
          exact ⟨l', List.mem_cons_of_mem _ hl', hok⟩
        · rw [hps] at hr
          rcases List.mem_cons.mp hr with h | h
          · exact ⟨l, List.mem_cons_self _ _, by rw [hps, h]⟩
          · obtain ⟨l', hl', hok⟩ := ih r h
            exact ⟨l', List.mem_cons_of_mem _ hl', hok⟩

/-- Witness for C5: the well-formed line of a two-line response is parsed
into a row and the malformed line is skipped. -/
theorem statusLineFromString_spec_witness :
    ∃ l ∈ ["too few", "job 1 2 3\n", ".\n"],
      statusLineFromString l =
        Except.ok { name := "job", queued := "1", running := "2", workers := "3" } :=
  (statusLineFromString_spec "").2.2 ["too few", "job 1 2 3\n", ".\n"]
    { name := "job", queued := "1", running := "2", workers := "3" } (by decide)

/-- Decimal accumulator for `goAtoi`: folds digits into a value, failing
on any non-digit character. -/
def digitsValAux : List Char → Nat → Option Nat
  | [], acc => some acc
  | c :: cs, acc =>
    if c.isDigit then digitsValAux cs (acc * 10 + (c.toNat - 48)) else none

/-- Sign handling of Go `strconv.Atoi`: strip one leading '-' or '+',
remembering whether the value is negated. -/
def goSign : List Char → Bool × List Char
  | '-' :: rest => (true, rest)
  | '+' :: rest => (false, rest)
  | cs => (false, cs)

/-- Digit handling of Go `strconv.Atoi`: at least one digit parses to the
(possibly negated) value with ok; anything else yields value 0 and
not-ok. -/
def goAtoiCore (neg : Bool) (digits : List Char) : Int × Bool :=
  if digits.isEmpty then (0, false)
  else
    match digitsValAux digits 0 with
    | some n => (if neg then -(n : Int) else (n : Int), true)
    | none => (0, false)

/-- Go `strconv.Atoi`, as (value, ok) — overflow of machine ints is not
modelled. -/
def goAtoi (s : String) : Int × Bool :=
  goAtoiCore (goSign s.data).fst (goSign s.data).snd

/-- The Go `byQueued.Less` comparator: rows compare by `Atoi` of the
queued field, the error return discarded. -/
def byQueuedLess (a b : StatusLine) : Bool :=
  decide ((goAtoi a.queued).fst < (goAtoi b.queued).fst)

/-- The Go `byRunning.Less` comparator. -/
def byRunningLess (a b : StatusLine) : Bool :=
  decide ((goAtoi a.running).fst < (goAtoi b.running).fst)

/-- The Go `byWorkers.Less` comparator. -/
def byWorkersLess (a b : StatusLine) : Bool :=
  decide ((goAtoi a.workers).fst < (goAtoi b.workers).fst)

/-- C6: the numeric comparators order rows by the integers `Atoi` parses
out of the corresponding string fields, a failed parse contributes the
value 0 (so the row compares exactly as if the field were "0"), and no
error is raised (the comparators are total functions). -/
theorem numericLess_spec (x y : StatusLine) (s : String) :
    ((goAtoi s).snd = false → (goAtoi s).fst = 0) ∧
      (byQueuedLess x y = decide ((goAtoi x.queued).fst < (goAtoi y.queued).fst)) ∧
      (byRunningLess x y = decide ((goAtoi x.running).fst < (goAtoi y.running).fst)) ∧
      (byWorkersLess x y = decide ((goAtoi x.workers).fst < (goAtoi y.workers).fst)) ∧
      ((goAtoi x.queued).snd = false →
        byQueuedLess x y = byQueuedLess { x with queued := "0" } y) ∧
      ((goAtoi x.running).snd = false →
        byRunningLess x y = byRunningLess { x with running := "0" } y) ∧
      ((goAtoi x.workers).snd = false →
        byWorkersLess x y = byWorkersLess { x with workers := "0" } y) := by
  have hcore : ∀ (neg : Bool) (ds : List Char),
      (goAtoiCore neg ds).snd = false → (goAtoiCore neg ds).fst = 0 := by
    intro neg ds h
    by_cases hd : ds.isEmpty
    · simp [goAtoiCore, hd]
    · rcases hval : digitsValAux ds 0 with _ | n
      · simp [goAtoiCore, hd, hval]
      · exfalso
        have hT : (goAtoiCore neg ds).snd = true := by simp [goAtoiCore, hd, hval]
        rw [h] at hT
        exact absurd hT (by simp)
  have hzero : ∀ t : String, (goAtoi t).snd = false → (goAtoi t).fst = 0 :=
    fun t ht => hcore _ _ ht
  have h0 : (goAtoi "0").fst = 0 := by decide
  refine ⟨hzero s, rfl, rfl, rfl, fun h => ?_, fun h => ?_, fun h => ?_⟩
  · unfold byQueuedLess
    rw [hzero _ h]; rw [show ({ x with queued := "0" } : StatusLine).queued = "0" from rfl, h0]
  · unfold byRunningLess
    rw [hzero _ h]; rw [show ({ x with running := "0" } : StatusLine).running = "0" from rfl, h0]
  · unfold byWorkersLess
    rw [hzero _ h]; rw [show ({ x with workers := "0" } : StatusLine).workers = "0" from rfl, h0]

/-- Witness for C6: a row whose queued field is the non-numeric "none"
compares exactly as a row with queued "0". -/
theorem numericLess_spec_witness :
    byQueuedLess { name := "a", queued := "none", running := "1", workers := "1" }
        { name := "b", queued := "3", running := "1", workers := "1" } =
      byQueuedLess { name := "a", queued := "0", running := "1", workers := "1" }
        { name := "b", queued := "3", running := "1", workers := "1" } :=
  (numericLess_spec { name := "a", queued := "none", running := "1", workers := "1" }
    { name := "b", queued := "3", running := "1", workers := "1" } "").2.2.2.2.1 (by decide)

/-- The Go `fieldWidths` struct of the `display` version: one width per
column plus their padded total. -/
structure fieldWidths where
  name : Nat
  queued : Nat
  running : Nat
  workers : Nat
  total : Nat
deriving DecidableEq, Repr

/-- One iteration of the width loop in `fieldWidthsFactory`: name, queued
and running take `max (len+1)` while workers takes `max len`. -/
def widthsStep (widths : fieldWidths) (l : StatusLine) : fieldWidths :=
  { widths with
    name := max (l.name.length + 1) widths.name
    queued := max (l.queued.length + 1) widths.queued
    running := max (l.running.length + 1) widths.running
    workers := max l.workers.length widths.workers }

/-- The Go `fieldWidthsFactory` (display version): start from the header
label lengths, widen over all rows, then record the padded total. -/
def fieldWidthsFactory (status : List StatusLine) : fieldWidths :=
  let init : fieldWidths :=
    { name := columnNames.name.length
      queued := columnNames.queued.length
      running := columnNames.running.length
      workers := columnNames.workers.length
      total := 0 }
  let w := status.foldl widthsStep init
  { w with total := w.name + w.queued + w.running + w.workers + 3 }

/-- Maximum of a list of lengths, 0 for the empty list. -/
def listMax (l : List Nat) : Nat := l.foldr max 0

theorem widthsFold_name (rows : List StatusLine) (w : fieldWidths) :
    (rows.foldl widthsStep w).name =
      max w.name (listMax (rows.map (fun r => r.name.length + 1))) := by
  induction rows generalizing w with
  | nil => simp [listMax]
  | cons r rs ih =>
    simp only [List.foldl_cons, List.map_cons, listMax, List.foldr_cons]
    rw [ih]
    simp only [widthsStep, listMax]
    omega

theorem widthsFold_queued (rows : List StatusLine) (w : fieldWidths) :
    (rows.foldl widthsStep w).queued =
      max w.queued (listMax (rows.map (fun r => r.queued.length + 1))) := by
  induction rows generalizing w with
  | nil => simp [listMax]
  | cons r rs ih =>
    simp only [List.foldl_cons, List.map_cons, listMax, List.foldr_cons]
    rw [ih]
    simp only [widthsStep, listMax]
    omega

theorem widthsFold_running (rows : List StatusLine) (w : fieldWidths) :
    (rows.foldl widthsStep w).running =
      max w.running (listMax (rows.map (fun r => r.running.length + 1))) := by
  induction rows generalizing w with
  | nil => simp [listMax]
  | cons r rs ih =>
    simp only [List.foldl_cons, List.map_cons, listMax, List.foldr_cons]
    rw [ih]
    simp only [widthsStep, listMax]
    omega

theorem widthsFold_workers (rows : List StatusLine) (w : fieldWidths) :
    (rows.foldl widthsStep w).workers =
      max w.workers (listMax (rows.map (fun r => r.workers.length))) := by
  induction rows generalizing w with
  | nil => simp [listMax]
  | cons r rs ih =>
    simp only [List.foldl_cons, List.map_cons, listMax, List.foldr_cons]
    rw [ih]
    simp only [widthsStep, listMax]
    omega

/-- C7 (amended): the name, queued and running widths are the max of the
header label length and the per-row field length plus one — the one-cell
padding is applied to the row operand only — while the workers width
takes the plain max of header length and row field lengths with no
padding; `total` is the sum of the four widths plus 3. -/
theorem fieldWidthsFactory_spec (rows : List StatusLine) :
    (fieldWidthsFactory rows).name =
        max columnNames.name.length (listMax (rows.map (fun r => r.name.length + 1))) ∧
      (fieldWidthsFactory rows).queued =
        max columnNames.queued.length (listMax (rows.map (fun r => r.queued.length + 1))) ∧
      (fieldWidthsFactory rows).running =
        max columnNames.running.length (listMax (rows.map (fun r => r.running.length + 1))) ∧
      (fieldWidthsFactory rows).workers =
        max columnNames.workers.length (listMax (rows.map (fun r => r.workers.length))) ∧
      (fieldWidthsFactory rows).total =
        (fieldWidthsFactory rows).name + (fieldWidthsFactory rows).queued +
          (fieldWidthsFactory rows).running + (fieldWidthsFactory rows).workers + 3 := by
  refine ⟨?_, ?_, ?_, ?_, rfl⟩
  · exact widthsFold_name rows _
  · exact widthsFold_queued rows _
  · exact widthsFold_running rows _
  · exact widthsFold_workers rows _

/-- Counterexample to C7 as stated: no single padding value added on top
of `max(header length, max row field length)` reproduces both the queued
width (which pads the row operand by one) and the workers width (which is
unpadded) on a row with a 7-character queued field and a 9-character
workers field. -/
theorem fieldWidthsFactory_padding_cex :
    ¬∃ p : Nat,
      (fieldWidthsFactory
            [{ name := "n", queued := "1234567", running := "2", workers := "123456789" }]).queued =
          max "Queued".length "1234567".length + p ∧
        (fieldWidthsFactory
            [{ name := "n", queued := "1234567", running := "2", workers := "123456789" }]).workers =
          max "Workers".length "123456789".length + p := by
  rintro ⟨p, h1, h2⟩
  have e1 : (fieldWidthsFactory
      [{ name := "n", queued := "1234567", running := "2", workers := "123456789" }]).queued = 8 := by
    decide
  have e2 : (fieldWidthsFactory
      [{ name := "n", queued := "1234567", running := "2", workers := "123456789" }]).workers = 9 := by
    decide
  have e3 : max "Queued".length "1234567".length = 7 := by decide
  have e4 : max "Workers".length "123456789".length = 9 := by decide
  rw [e1, e3] at h1
  rw [e2, e4] at h2
  omega

/-- The scrolling-related fields of the Go `display` struct (header and
footer heights are fixed at 1 by `drawHeader`/`drawFooter` and the sort
and width fields do not affect the viewport, so they are left out). -/
structure ScrollView where
  statusLines : List StatusLine
  position : Int
  numberOfRows : Int
  height : Int
  width : Int
deriving DecidableEq, Repr

/-- The Go `(*display).scrollOutput`: move by `direction` unless already
at the top (for up) or the bottom (for down). -/
def scrollOutput (d : ScrollView) (direction : Int) : ScrollView :=
  let scrolledToTop := d.position = 0
  let scrolledToBottom := (d.statusLines.length : Int) - d.position ≤ d.numberOfRows
  if (direction < 0 ∧ ¬scrolledToTop) ∨ (direction > 0 ∧ ¬scrolledToBottom) then
    { d with position := d.position + direction }
  else
    d

/-- The Go `(*display).resize`: store the new dimensions and request a
redraw; the position is not touched. -/
def resize (d : ScrollView) (width height : Int) : ScrollView :=
  { d with width := width, height := height }

/-- The recomputation of `d.numberOfRows` inside `(*display).draw`:
height minus the header row and the footer row. -/
def drawUpdateRows (d : ScrollView) : ScrollView :=
  { d with numberOfRows := d.height - 1 - 1 }

/-- The snapshot replacement inside `(*display).updateLines`: the new
poll result overwrites `statusLines`; the position is not touched. -/
def updateStatus (d : ScrollView) (newLines : List StatusLine) : ScrollView :=
  { d with statusLines := newLines }

/-- A sample non-idle status row used in concrete scenarios. -/
def sampleLine : StatusLine := { name := "a", queued := "1", running := "2", workers := "3" }

/-- C2 (amended): while the position is within the bound derived from the
current `numberOfRows`, scroll-up yields `max 0 (position - 1)` and
scroll-down yields `min (position + 1) (max 0 (totalRows -
numberOfRows))`; a resize (and the subsequent redraw that recomputes
`numberOfRows`) leaves the position unchanged rather than re-clamping
it. -/
theorem scrollOutput_spec (d : ScrollView) (w h : Int)
    (hpos : 0 ≤ d.position) (_hrows : 0 ≤ d.numberOfRows)
    (hbound : d.position ≤ max 0 ((d.statusLines.length : Int) - d.numberOfRows)) :
    (scrollOutput d (-1)).position = max 0 (d.position - 1) ∧
      (scrollOutput d 1).position =
        min (d.position + 1) (max 0 ((d.statusLines.length : Int) - d.numberOfRows)) ∧
      (resize d w h).position = d.position ∧
      (drawUpdateRows (resize d w h)).position = d.position := by
  refine ⟨?_, ?_, rfl, rfl⟩
  · simp only [scrollOutput]
    split_ifs with hc
    · simp only
      omega
    · simp only [not_or, not_and_or, not_not] at hc
      obtain ⟨h1, -⟩ := hc
      rcases h1 with h1 | h1 <;> omega
  · simp only [scrollOutput]
    split_ifs with hc
    · simp only
      omega
    · simp only [not_or, not_and_or, not_not] at hc
      obtain ⟨-, h2⟩ := hc
      rcases h2 with h2 | h2 <;> omega

/-- Witness for C2 (amended): at position 1 of 3 rows with a 1-row
viewport, scroll-up moves to 0 and scroll-down moves to 2. -/
theorem scrollOutput_spec_witness :
    (scrollOutput
          { statusLines := List.replicate 3 sampleLine, position := 1, numberOfRows := 1,
            height := 3, width := 80 } (-1)).position = 0 ∧
      (scrollOutput
          { statusLines := List.replicate 3 sampleLine, position := 1, numberOfRows := 1,
            height := 3, width := 80 } 1).position = 2 := by
  have h := scrollOutput_spec
    { statusLines := List.replicate 3 sampleLine, position := 1, numberOfRows := 1,
      height := 3, width := 80 } 80 3 (by decide) (by decide) (by decide)
  exact ⟨by rw [h.1]; decide, by rw [h.2.1]; decide⟩

/-- The state of the display after the C2 counterexample scenario: six
scroll-downs over 10 rows with a 4-row viewport, then a resize to height
10 and the redraw's `numberOfRows` recomputation. -/
def scrollResizeRun : ScrollView :=
  drawUpdateRows
    (resize
      (scrollOutput (scrollOutput (scrollOutput (scrollOutput (scrollOutput (scrollOutput
        { statusLines := List.replicate 10 sampleLine, position := 0, numberOfRows := 4,
          height := 6, width := 80 } 1) 1) 1) 1) 1) 1)
      80 10)

/-- Counterexample to C2 as stated: after the scroll/resize sequence of
`scrollResizeRun` the position is 6, outside the claimed range
`[0, max 0 (totalRows - visibleRows)] = [0, 2]` for the new height —
resize does not re-clamp the position. -/
theorem scroll_resize_cex :
    scrollResizeRun.position = 6 ∧
      ¬(scrollResizeRun.position ≤
          max 0 ((scrollResizeRun.statusLines.length : Int) - scrollResizeRun.numberOfRows)) := by
  decide

/-- The state of the display after the C9 scenario: three scroll-downs
over a 10-row snapshot with a 2-row viewport, then a poll publishing a
1-row snapshot. -/
def shrinkRun : ScrollView :=
  updateStatus
    (scrollOutput (scrollOutput (scrollOutput
      { statusLines := List.replicate 10 sampleLine, position := 0, numberOfRows := 2,
        height := 4, width := 80 } 1) 1) 1)
    [sampleLine]

/-- C9: the failing scenario — after `shrinkRun` the position is 3 while
the freshly published snapshot has 1 row, so `position` exceeds the row
count and the slice `lines[d.position:]` taken by `(*display).draw` is
out of bounds (a Go slice panic). -/
theorem updateStatus_stale_position :
    shrinkRun.position = 3 ∧ shrinkRun.statusLines.length = 1 ∧
      ¬(shrinkRun.position ≤ (shrinkRun.statusLines.length : Int)) := by
  decide

/-- The body-row selection of `(*display).draw`: `lines[d.position:]`,
then truncated to `d.numberOfRows` rows when longer. -/
def visibleLines (lines : List StatusLine) (position numberOfRows : Nat) : List StatusLine :=
  let printLines := lines.drop position
  if printLines.length > numberOfRows then printLines.take numberOfRows else printLines

/-- The Go `drawFooter` text: `min (y + position - 1) totalLines` over
`totalLines`, where `y` is the display height. -/
def drawFooterProgress (sl : List StatusLine) (position y : Int) : String :=
  let displayedLines := y + position - 1
  let totalLines : Int := sl.length
  toString (min displayedLines totalLines) ++ "/" ++ toString totalLines

/-- C8 (amended): the footer text is
`min (height + position - 1) totalRows` over `totalRows`.  When the rows
run out at or before the last body row of the viewport this number equals
the 1-based index of the last data row actually visible; when the rows
fill the whole viewport and more remain it exceeds that index by one
(the formula counts the footer line as if it held a data row). -/
theorem drawFooter_spec (lines : List StatusLine) (position height : Nat)
    (h2 : 2 ≤ height) (hp : position ≤ lines.length) :
    drawFooterProgress lines position height =
        toString (min ((height : Int) + position - 1) (lines.length : Int)) ++ "/" ++
          toString (lines.length : Int) ∧
      (lines.length + 2 ≤ height + position →
        min ((height : Int) + position - 1) (lines.length : Int) =
          position + (visibleLines lines position (height - 1 - 1)).length) ∧
      (height + position ≤ lines.length + 1 →
        min ((height : Int) + position - 1) (lines.length : Int) =
          position + (visibleLines lines position (height - 1 - 1)).length + 1) := by
  refine ⟨rfl, fun hcase => ?_, fun hcase => ?_⟩
  · have hlen : (visibleLines lines position (height - 1 - 1)).length =
        lines.length - position := by
      simp only [visibleLines, List.length_drop]
      split_ifs with hgt
      · omega
      · rw [List.length_drop]
    rw [hlen]
    omega
  · have hlen : (visibleLines lines position (height - 1 - 1)).length = height - 1 - 1 := by
      simp only [visibleLines, List.length_drop]
      split_ifs with hgt
      · rw [List.length_take, List.length_drop]
        omega
      · rw [List.length_drop]
        omega
    rw [hlen]
    push_cast [Nat.cast_sub (by omega : 1 ≤ height - 1), Nat.cast_sub (by omega : 1 ≤ height)]
    omega

/-- Witness for C8 (amended): 3 rows on a 10-high display at position 0
are all visible, and the footer 3/3 names the last visible row. -/
theorem drawFooter_spec_witness :
    min ((10 : Int) + 0 - 1) ((List.replicate 3 sampleLine).length : Int) =
      0 + (visibleLines (List.replicate 3 sampleLine) 0 (10 - 1 - 1)).length :=
  (drawFooter_spec (List.replicate 3 sampleLine) 0 10 (by decide) (by decide)).2.1 (by decide)

/-- Counterexample to C8 as stated: 9 rows on a 10-high display at
position 0 show 8 body rows (header and footer take one row each), so the
last visible data row has index 8, yet the footer reads "9/9". -/
theorem drawFooter_cex :
    drawFooterProgress (List.replicate 9 sampleLine) 0 10 = "9/9" ∧
      0 + (visibleLines (List.replicate 9 sampleLine) 0 (10 - 1 - 1)).length = 8 ∧
      drawFooterProgress (List.replicate 9 sampleLine) 0 10 ≠
        toString (0 + (visibleLines (List.replicate 9 sampleLine) 0 (10 - 1 - 1)).length) ++ "/" ++
          toString (List.replicate 9 sampleLine).length := by
  refine ⟨by decide, by decide, ?_⟩
  intro h
  have h1 : drawFooterProgress (List.replicate 9 sampleLine) 0 10 = "9/9" := by decide
  have h2 : toString (0 + (visibleLines (List.replicate 9 sampleLine) 0 (10 - 1 - 1)).length) ++
      "/" ++ toString (List.replicate 9 sampleLine).length = "8/9" := by decide
  rw [h1, h2] at h
  exact absurd h (by decide)

/-- The adjusted name-column width computed by `(*display).draw` before
truncation: `widths.name += d.width - widths.total`. -/
def nameTruncationBound (rows : List StatusLine) (width : Int) : Int :=
  let widths := fieldWidthsFactory rows
  (widths.name : Int) + (width - (widths.total : Int))

/-- C10: the failing scenario — for a snapshot holding the single
non-idle row `somequeue 0 0 1` and a terminal of width 10, the adjusted
name width is negative (-13) while the row's 9-character name exceeds it,
so `drawLine` takes the truncation branch and Go evaluates
`line.Name[:width]` with a negative bound (a slice panic). -/
theorem nameTruncation_negative :
    nameTruncationBound [{ name := "somequeue", queued := "0", running := "0", workers := "1" }]
        10 < 0 ∧
      (("somequeue" : String).length : Int) >
        nameTruncationBound
          [{ name := "somequeue", queued := "0", running := "0", workers := "1" }] 10 := by
  decide

/-- The spec's StatusRow data model: a job name with integer queued,
running and worker counts. -/
structure StatusRow where
  name : String
  queued : Nat
  running : Nat
  workers : Nat
deriving DecidableEq, Repr

/-- Combination of two rows sharing a name: the numeric fields are
summed. -/
def combineRows (a b : StatusRow) : StatusRow :=
  { name := a.name, queued := a.queued + b.queued, running := a.running + b.running,
    workers := a.workers + b.workers }

/-- Modelled from the spec: `StatusLines.Merge` of the gearadmin library,
called from `(*display).updateLines`, is not part of this repository's
sources.  Per the spec, rows from the two per-host sequences are combined
by equal `name` — queued/running/workers summed across hosts sharing a
name — and hosts with disjoint job sets contribute the union. -/
def mergeStatusLines (xs ys : List StatusRow) : List StatusRow :=
  xs.map (fun a =>
      match ys.find? (fun b => b.name == a.name) with
      | some b => combineRows a b
      | none => a) ++
    ys.filter (fun b => !(xs.any (fun a => a.name == b.name)))

/-- The names of a row sequence, in order. -/
def rowNames (xs : List StatusRow) : List String := xs.map (fun r => r.name)

theorem mergeMap_names (xs ys : List StatusRow) :
    rowNames (xs.map (fun a =>
        match ys.find? (fun b => b.name == a.name) with
        | some b => combineRows a b
        | none => a)) = rowNames xs := by
  unfold rowNames
  rw [List.map_map]
  apply List.map_congr_left
  intro a _
  simp only [Function.comp_apply]
  rcases h : ys.find? (fun b => b.name == a.name) with _ | b
  · rw [h]
  · rw [h]
    simp [combineRows]

/-- C4: merging two per-host row sequences whose names are each duplicate
free yields at most one row per distinct name; a name present in both
inputs contributes exactly the combined row with summed
queued/running/workers, and a name present in only one input passes
through unchanged (disjoint job sets yield the union). -/
theorem mergeStatusLines_spec (xs ys : List StatusRow)
    (hx : (rowNames xs).Nodup) (hy : (rowNames ys).Nodup) :
    (rowNames (mergeStatusLines xs ys)).Nodup ∧
      (∀ a ∈ xs, ∀ b ∈ ys, a.name = b.name → combineRows a b ∈ mergeStatusLines xs ys) ∧
      (∀ a ∈ xs, (∀ b ∈ ys, b.name ≠ a.name) → a ∈ mergeStatusLines xs ys) ∧
      (∀ b ∈ ys, (∀ a ∈ xs, a.name ≠ b.name) → b ∈ mergeStatusLines xs ys) := by
  refine ⟨?_, fun a ha b hb hname => ?_, fun a ha hn => ?_, fun b hb hn => ?_⟩
  · unfold mergeStatusLines rowNames
    rw [List.map_append, List.nodup_append]
    refine ⟨?_, ?_, ?_⟩
    · have h := mergeMap_names xs ys
      unfold rowNames at h
      rw [h]
      exact hx
    · have hsub : ((ys.filter (fun b => !(xs.any (fun a => a.name == b.name)))).map
          (fun r => r.name)).Sublist (ys.map (fun r => r.name)) :=
        (List.filter_sublist ys).map (fun r => r.name)
      exact List.Nodup.sublist hsub hy
    · intro n hn1 hn2
      have h := mergeMap_names xs ys
      unfold rowNames at h
      rw [h] at hn1
      rw [List.mem_map] at hn1 hn2
      obtain ⟨a, ha, hna⟩ := hn1
      obtain ⟨b, hbf, hnb⟩ := hn2
      rw [List.mem_filter] at hbf
      obtain ⟨-, hp⟩ := hbf
      simp only [Bool.not_eq_eq_eq_not, Bool.not_true, List.any_eq_false, beq_eq_false_iff_ne,
        ne_eq] at hp
      exact hp a ha (by simp [hna, hnb])
  · have hf : ys.find? (fun b' => b'.name == a.name) = some b := by
      rcases hfind : ys.find? (fun b' => b'.name == a.name) with _ | b''
      · rw [List.find?_eq_none] at hfind
        exact absurd (by simp [hname.symm] : (b.name == a.name) = true)
          (by simpa using hfind b hb)
      · have hmem : b'' ∈ ys := List.mem_of_find?_eq_some hfind
        have hpred := List.find?_some hfind
        simp only [beq_iff_eq] at hpred
        have hinj : b'' = b := by
          unfold rowNames at hy
          exact List.inj_on_of_nodup_map hy hmem hb (by rw [hpred, hname])
        rw [hinj] at hfind
        exact hfind
    refine List.mem_append_left _ (List.mem_map.mpr ⟨a, ha, ?_⟩)
    rw [hf]
  · have hf : ys.find? (fun b' => b'.name == a.name) = none :=
      List.find?_eq_none.mpr (fun b hb => by simp [hn b hb])
    refine List.mem_append_left _ (List.mem_map.mpr ⟨a, ha, ?_⟩)
    rw [hf]
  · refine List.mem_append_right _ (List.mem_filter.mpr ⟨hb, ?_⟩)
    simp only [Bool.not_eq_eq_eq_not, Bool.not_true, List.any_eq_false, beq_eq_false_iff_ne,
      ne_eq]
    exact fun x hx => by simp [hn x hx]

/-- Witness for C4: two single-host sequences both naming "X" merge into
the single row with summed fields. -/
theorem mergeStatusLines_spec_witness :
    combineRows { name := "X", queued := 0, running := 0, workers := 0 }
        { name := "X", queued := 2, running := 1, workers := 3 } ∈
      mergeStatusLines [{ name := "X", queued := 0, running := 0, workers := 0 }]
        [{ name := "X", queued := 2, running := 1, workers := 3 }] :=
  (mergeStatusLines_spec [{ name := "X", queued := 0, running := 0, workers := 0 }]
        [{ name := "X", queued := 2, running := 1, workers := 3 }] (by decide) (by decide)).2.1
    { name := "X", queued := 0, running := 0, workers := 0 } (by decide)
    { name := "X", queued := 2, running := 1, workers := 3 } (by decide) rfl
